import Mathlib

/-!
# Route builder of the annotation scanner (`codescan/routes.go`)

A shallow embedding of the setter adapters and of `routesBuilder.Build`.

* Go maps are association lists with distinct keys (`AList`); a map that must
  be told apart from a nil map is wrapped in `Option`.
* `*spec.Operation` is a pointer: operations live in a heap and the path items
  of the document hold addresses, so that an assignment through `op` is seen
  by every holder of the same address.
* A setter closure `func(args)` bound to `op` becomes a function from the
  operation record and the arguments to the new operation record.
-/

set_option linter.dupNamespace false

namespace Codescan

/-- A Go map with keys `K` and values `V`. -/
abbrev GoMap (K V : Type) := AList (fun _ : K => V)

/-! ## Data model -/

/-- Modelled from the spec: the server entry of the spec library (its type
declaration is not among the sources); `routes.go` fills `ServerProps.URL`. -/
structure Server where
  URL : String
deriving DecidableEq

/-- Modelled from the spec: a parsed parameter of the spec library, with the
fields the spec names (name, location, type, description). -/
structure Parameter where
  Name : String
  In : String
  Schema : String
  Description : String
deriving DecidableEq

/-- Modelled from the spec: one response of the spec library. -/
structure Response where
  Description : String
deriving DecidableEq

/-- Modelled from the spec: the response object of an operation, with the two
fields `routes.go` assigns: the default slot (a pointer, `none` when nil) and
the status-code map. -/
structure Responses where
  Default : Option Response
  StatusCodeResponses : GoMap Int Response

/-- The vendor-extension map `spec.Extensions`. -/
abbrev Extensions := GoMap String String

/-- One security requirement, `map[string][]string`: scheme name to scopes. -/
abbrev SecurityRequirement := GoMap String (List String)

/-- Modelled from the spec: the operation record of the spec library, with the
fields `routes.go` reads or writes. `Responses` is a pointer (`none` when nil). -/
structure Operation where
  ID : String
  Tags : List String
  Summary : String
  Description : String
  Consumes : List String
  Produces : List String
  Servers : List Server
  Security : List SecurityRequirement
  Parameters : List Parameter
  Responses : Option Responses
  Deprecated : Bool
  Extensions : Extensions

/-- The zero value `new(spec.Responses)`. -/
def Responses.zero : Responses :=
  { Default := none, StatusCodeResponses := ∅ }

/-- The zero value `new(spec.Operation)`. -/
def Operation.zero : Operation :=
  { ID := "", Tags := [], Summary := "", Description := "", Consumes := [],
    Produces := [], Servers := [], Security := [], Parameters := [],
    Responses := none, Deprecated := false, Extensions := ∅ }

/-! ## Setter adapters (`routes.go`, lines 12-69) -/

/-- Setter `opConsumesSetter`: `op.Consumes = consumes`. -/
def opConsumesSetter (op : Operation) (consumes : List String) : Operation :=
  { op with Consumes := consumes }

/-- Setter `opProducesSetter`: `op.Produces = produces`. -/
def opProducesSetter (op : Operation) (produces : List String) : Operation :=
  { op with Produces := produces }

/-- Setter `opServersSetter`: for each scheme of the list, in order,
`op.Servers = append(op.Servers, Server{URL: scheme + "://"})`. -/
def opServersSetter (op : Operation) (schemes : List String) : Operation :=
  schemes.foldl
    (fun op scheme => { op with Servers := op.Servers ++ [{ URL := scheme ++ "://" }] }) op

/-- Setter `opSecurityDefsSetter`: `op.Security = securityDefs`. -/
def opSecurityDefsSetter (op : Operation) (securityDefs : List SecurityRequirement) :
    Operation :=
  { op with Security := securityDefs }

/-- Setter `opResponsesSetter`: allocate the response object when it is nil, then
assign its `Default` and `StatusCodeResponses`. -/
def opResponsesSetter (op : Operation) (d : Option Response) (scr : GoMap Int Response) :
    Operation :=
  let rs : Responses :=
    match op.Responses with
    | none => Responses.zero
    | some rs => rs
  { op with Responses := some { rs with Default := d, StatusCodeResponses := scr } }

/-- The key by which the parameter list tells parameters apart: name and location. -/
def Parameter.key (p : Parameter) : String × String := (p.Name, p.In)

/-- Modelled from the spec: the list update behind `AddParam`. Replace the first
parameter of the list that has the name and location of `param` by `param`;
append `param` when there is none. -/
def replaceOrAppend : List Parameter → Parameter → List Parameter
  | [], param => [param]
  | p :: ps, param =>
    if p.Name = param.Name ∧ p.In = param.In then param :: ps
    else p :: replaceOrAppend ps param

/-- Modelled from the spec: `Operation.AddParam` of the spec library, which is
not among the sources. The spec: a parameter is appended to the operation's
parameter list, and one with the (name, location) of an earlier entry
overwrites that entry. -/
def Operation.AddParam (op : Operation) (param : Parameter) : Operation :=
  { op with Parameters := replaceOrAppend op.Parameters param }

/-- Modelled from the spec: `Operation.AddExtension` of the spec library, which
is not among the sources. The spec: the entry is merged into the operation's
vendor-extension map, a later key overwrites the same-named earlier key and
distinct keys coexist. -/
def Operation.AddExtension (op : Operation) (name : String) (value : String) : Operation :=
  { op with Extensions := op.Extensions.insert name value }

/-- Setter `opParamSetter`: `for _, v := range params { op.AddParam(v) }`. -/
def opParamSetter (op : Operation) (params : List Parameter) : Operation :=
  params.foldl (fun op v => op.AddParam v) op

/-- Setter `opExtensionsSetter`:
`for name, value := range *exts { op.AddExtension(name, value) }`. The entries
are visited in the order of the association list, which stands for whatever
order the Go runtime picks. -/
def opExtensionsSetter (op : Operation) (exts : Extensions) : Operation :=
  exts.entries.foldl (fun op e => op.AddExtension e.1 e.2) op

/-! ## Errors -/

/-- A Go `error` value: a plain error carrying its message, or the value built
by `fmt.Errorf` with a `%w` verb, which carries the formatted message and the
error it wraps. -/
inductive GoError where
  | errorString (s : String)
  | wrapError (msg : String) (err : GoError)
deriving DecidableEq

/-- Method `Error()`: the message of the error. -/
def GoError.Error : GoError → String
  | .errorString s => s
  | .wrapError msg _ => msg

/-- Method `Unwrap()`: the wrapped error, if any. -/
def GoError.Unwrap : GoError → Option GoError
  | .errorString _ => none
  | .wrapError _ err => some err

/-- The call `fmt.Errorf("operation (%s): %w", id, err)`. -/
def errorfOperation (id : String) (err : GoError) : GoError :=
  .wrapError ("operation (" ++ id ++ "): " ++ err.Error) err

/-! ## Heap, document and route -/

/-- The address of an operation record (`*spec.Operation`). -/
abbrev Ptr := Nat

/-- The memory that holds the operation records: the record at each address,
and the next address that `new` hands out. -/
structure Heap where
  cells : Ptr → Operation
  next : Ptr

/-- Read the record at an address. -/
def deref (h : Heap) (p : Ptr) : Operation := h.cells p

/-- Allocate a record (`new`): the new heap and the address of the record. -/
def alloc (h : Heap) (o : Operation) : Heap × Ptr :=
  ({ cells := Function.update h.cells h.next o, next := h.next + 1 }, h.next)

/-- Assign through a pointer: the record at `p` becomes `f` of itself. -/
def modify (h : Heap) (p : Ptr) (f : Operation → Operation) : Heap :=
  { h with cells := Function.update h.cells p (f (h.cells p)) }

/-- Modelled from the spec: the path item of the spec library, a mapping from
HTTP method to operation record. The records are held by address, as the
`*spec.Operation` of `routes.go` is. -/
abbrev PathItem := GoMap String Ptr

/-- The target of `Build`, `spec.Paths`: its `Paths` field is
`map[string]PathItem`, `none` when the map is nil. -/
structure Paths where
  Paths : Option (GoMap String PathItem)

/-- The read `tgt.Paths[key]`: the zero path item when the map is nil or has no
such key. -/
def pathAt (tgt : Paths) (key : String) : PathItem :=
  match tgt.Paths with
  | none => ∅
  | some m => (m.lookup key).getD ∅

/-- The route handed to the builder (`parsedPathContent`). -/
structure parsedPathContent where
  Method : String
  Path : String
  ID : String
  Tags : List String
  Remaining : List String

/-- The fields of `routesBuilder` that `Build` reads itself; `definitions`,
`responses` and `parameters` only reach the section parser. -/
structure routesBuilder where
  route : parsedPathContent
  operations : GoMap String Ptr

/-! ## The callbacks wired into the section parser (`routes.go`, lines 88-102) -/

/-- One invocation, by the section parser, of a callback that `Build` bound to
the target operation. -/
inductive SetterCall where
  | setTitle (lines : List String)
  | setDescription (lines : List String)
  | consumes (consumes : List String)
  | produces (produces : List String)
  | schemes (schemes : List String)
  | security (securityDefs : List SecurityRequirement)
  | params (params : List Parameter)
  | responses (d : Option Response) (scr : GoMap Int Response)
  | deprecated
  | extensions (exts : Extensions)

/-- The effect of one callback on the target operation. `joinDropLast` is a
helper of the package that is not among the sources and is taken as given; the
`Deprecated` tagger (`setDeprecatedOp`) sets the deprecated flag, as the spec
has it. -/
def applyCall (joinDropLast : List String → String) (op : Operation) :
    SetterCall → Operation
  | .setTitle lines => { op with Summary := joinDropLast lines }
  | .setDescription lines => { op with Description := joinDropLast lines }
  | .consumes c => opConsumesSetter op c
  | .produces c => opProducesSetter op c
  | .schemes c => opServersSetter op c
  | .security c => opSecurityDefsSetter op c
  | .params c => opParamSetter op c
  | .responses d scr => opResponsesSetter op d scr
  | .deprecated => { op with Deprecated := true }
  | .extensions exts => opExtensionsSetter op exts

/-- The section parser `sp.Parse`, whose code is not among the sources: run
over the lines it invokes callbacks, in some order, and returns an error or nil. -/
abbrev SectionParse := List String → List SetterCall × Option GoError

/-! ## The route builder (`routes.go`, lines 71-112) -/

/-- The type of `setPathOperation(method, id, &pthObj, op)`: from the path item
and the heap to the updated path item, the heap and the returned pointer. -/
abbrev SetPathOperation :=
  String → String → PathItem → Option Ptr → Heap → PathItem × Heap × Ptr

/-- Modelled from the spec: the installing half of `setPathOperation`. Put a
record in the method slot of the path item: the record the caller hands in or,
when that pointer is nil, a new empty record that carries the identifier. -/
def installOperation (method id : String) (pthObj : PathItem) (op : Option Ptr)
    (h : Heap) : PathItem × Heap × Ptr :=
  match op with
  | some p => (pthObj.insert method p, h, p)
  | none =>
    let a := alloc h { Operation.zero with ID := id }
    (pthObj.insert method a.2, a.1, a.2)

/-- Modelled from the spec: `setPathOperation`, a function of the package that
is not among the sources. The spec: look up the method within the path entry;
an operation with the same identifier that is already there is the mutation
target; otherwise a record is installed in the method slot. -/
def setPathOperation : SetPathOperation := fun method id pthObj op h =>
  match pthObj.lookup method with
  | some p =>
    if (deref h p).ID = id then (pthObj, h, p)
    else installOperation method id pthObj op h
  | none => installOperation method id pthObj op h

/-- What one `Build` call leaves: the heap, the target document and the
returned error (`none` for nil). -/
structure BuildResult where
  heap : Heap
  tgt : Paths
  err : Option GoError

/-- Method `routesBuilder.Build` (`routes.go`, lines 80-112). The functions of
the package that are not among the sources are arguments: `spo` stands for
`setPathOperation` and `parse` for the section parser with the callbacks of
lines 88-102 bound to `op`. -/
def routesBuilder.Build (spo : SetPathOperation) (joinDropLast : List String → String)
    (parse : SectionParse) (r : routesBuilder) (h : Heap) (tgt : Paths) : BuildResult :=
  let pthObj := pathAt tgt r.route.Path
  let s := spo r.route.Method r.route.ID pthObj (r.operations.lookup r.route.ID) h
  let pthObj := s.1
  let op := s.2.2
  let h := modify s.2.1 op (fun o => { o with Tags := r.route.Tags })
  let out := parse r.route.Remaining
  let h := modify h op (fun o => out.1.foldl (applyCall joinDropLast) o)
  match out.2 with
  | some err =>
    { heap := h, tgt := tgt,
      err := some (errorfOperation (deref h op).ID err) }
  | none =>
    let paths : GoMap String PathItem :=
      match tgt.Paths with
      | none => ∅
      | some m => m
    { heap := h, tgt := { tgt with Paths := some (paths.insert r.route.Path pthObj) },
      err := none }

/-- The server entry `opServersSetter` makes of a scheme token. -/
def schemeServer (scheme : String) : Server := { URL := scheme ++ "://" }

/-- The keys of a list, each kept at its first occurrence: the order in which
the keys were first declared. -/
def firstOccurrences : List (String × String) → List (String × String)
  | [] => []
  | k :: ks => k :: (firstOccurrences ks).filter (fun k' => k' ≠ k)

/-! ## Concrete inputs -/

/-- An operation that already holds the parameter `id` in `path`. -/
def exampleOperation : Operation :=
  { Operation.zero with
    Parameters := [{ Name := "id", In := "path", Schema := "string", Description := "old" }] }

/-- A parameter list that declares `id` in `path` twice, around `limit` in `query`. -/
def exampleParams : List Parameter :=
  [{ Name := "id", In := "path", Schema := "integer", Description := "first" },
   { Name := "limit", In := "query", Schema := "integer", Description := "page size" },
   { Name := "id", In := "path", Schema := "integer", Description := "second" }]

/-- An operation that already holds two parameters `id` in `path`. -/
def dupOperation : Operation :=
  { Operation.zero with
    Parameters := [{ Name := "id", In := "path", Schema := "string", Description := "a" },
                   { Name := "id", In := "path", Schema := "string", Description := "b" }] }

/-- A parameter list that declares `id` in `path` twice. -/
def dupParams : List Parameter :=
  [{ Name := "id", In := "path", Schema := "string", Description := "c" },
   { Name := "id", In := "path", Schema := "string", Description := "d" }]

/-- An operation `getPet` that carries the tag `old`. -/
def petOperation : Operation :=
  { Operation.zero with ID := "getPet", Tags := ["old"] }

/-- A heap whose address 0 holds `petOperation`. -/
def petHeap : Heap :=
  { cells := fun p => if p = 0 then petOperation else Operation.zero, next := 1 }

/-- A document whose path `/pets` has the operation at address 0 in its `GET` slot. -/
def petDocument : Paths :=
  { Paths := some ((∅ : GoMap String PathItem).insert "/pets"
      ((∅ : PathItem).insert "GET" 0)) }

/-- A builder for a route `GET /pets` with the operation identifier `getPet`
and the tag `pets`. -/
def petBuilder : routesBuilder :=
  { route := { Method := "GET", Path := "/pets", ID := "getPet", Tags := ["pets"],
               Remaining := ["Parameters:", "+ name"] },
    operations := ∅ }

/-- A stand-in for `joinDropLast`: the lines joined by newlines. -/
def joinLines (lines : List String) : String := String.intercalate "\n" lines

/-- A parse that rejects the lines before any callback is invoked. -/
def failingParse : SectionParse :=
  fun _ => ([], some (.errorString "malformed parameter line"))

/-- A parse that invokes the Schemes callback and succeeds. -/
def schemesParse : SectionParse :=
  fun _ => ([.schemes ["http"]], none)

/-! ## The Schemes setter -/

theorem opServersSetter_servers (op : Operation) (schemes : List String) :
    (opServersSetter op schemes).Servers = op.Servers ++ schemes.map schemeServer := by
  induction schemes generalizing op with
  | nil => simp [opServersSetter]
  | cons s ss ih =>
    have step := ih { op with Servers := op.Servers ++ [{ URL := s ++ "://" }] }
    simp only [opServersSetter, List.foldl_cons] at step ⊢
    rw [step]
    simp [schemeServer]

/-- C5: the Schemes setter leaves the previous server list followed by one
entry per token, in token order, the entry of token `s` having URL `s ++ "://"`;
for the tokens `http`, `https` on an operation without servers the result is
the two entries `http://` and `https://`, in that order. -/
theorem opServersSetter_appends (op : Operation) (schemes : List String) :
    (opServersSetter op schemes).Servers
        = op.Servers ++ schemes.map (fun s => { URL := s ++ "://" })
      ∧ (opServersSetter { op with Servers := [] } ["http", "https"]).Servers
        = [{ URL := "http://" }, { URL := "https://" }] := by
  refine ⟨opServersSetter_servers op schemes, ?_⟩
  rw [opServersSetter_servers]
  show ([] : List Server) ++ List.map schemeServer ["http", "https"] = _
  decide

/-- C6, as stated, fails: on an operation without servers the Schemes setter
applied twice with the one token `http` leaves two entries, applied once it
leaves one. -/
theorem opServersSetter_twice_counterexample :
    (opServersSetter (opServersSetter Operation.zero ["http"]) ["http"]).Servers
      ≠ (opServersSetter Operation.zero ["http"]).Servers := by
  rw [opServersSetter_servers, opServersSetter_servers]
  decide

/-- C6, amended: the Schemes setter accumulates. Applied twice with the same
token list it leaves the server list of one application followed by one more
entry per token, so the two server lists agree exactly when the token list is
empty. -/
theorem opServersSetter_twice (op : Operation) (schemes : List String) :
    (opServersSetter (opServersSetter op schemes) schemes).Servers
        = (opServersSetter op schemes).Servers
            ++ schemes.map (fun s => { URL := s ++ "://" })
      ∧ ((opServersSetter (opServersSetter op schemes) schemes).Servers
            = (opServersSetter op schemes).Servers ↔ schemes = []) := by
  have h2 := opServersSetter_servers (opServersSetter op schemes) schemes
  refine ⟨h2, ?_⟩
  rw [h2]
  constructor
  · intro h
    have hl := congrArg List.length h
    simp at hl
    exact hl
  · intro h
    simp [h]

/-! ## The Responses and Security setters -/

/-- C9: after the Responses setter the response object is non-nil, its default
slot is `d` and its status-code map is `m`, whatever the operation held; applied
with `(d1, m1)` and then `(d2, m2)` it leaves exactly `d2` and `m2`. -/
theorem opResponsesSetter_replaces (op : Operation) (d1 d2 : Option Response)
    (m1 m2 : GoMap Int Response) :
    (opResponsesSetter op d1 m1).Responses
        = some { Default := d1, StatusCodeResponses := m1 }
      ∧ (opResponsesSetter (opResponsesSetter op d1 m1) d2 m2).Responses
        = some { Default := d2, StatusCodeResponses := m2 } := by
  constructor <;> simp [opResponsesSetter]

/-- C10, as stated, fails: on an operation that holds one security requirement
the Security setter given one other requirement leaves a list of one
requirement, not the two. -/
theorem opSecurityDefsSetter_counterexample :
    (opSecurityDefsSetter
        { Operation.zero with Security := [(∅ : SecurityRequirement).insert "api_key" []] }
        [(∅ : SecurityRequirement).insert "oauth2" ["read"]]).Security
      ≠ [(∅ : SecurityRequirement).insert "api_key" []]
          ++ [(∅ : SecurityRequirement).insert "oauth2" ["read"]] := by
  intro h
  have hl := congrArg List.length h
  simp [opSecurityDefsSetter] at hl

/-- C10, amended: the Security setter replaces. After the call the security
requirement list is exactly the given requirements, in line order, and no other
field of the operation has changed; it is the previous list followed by the
given one only when the previous list was empty. -/
theorem opSecurityDefsSetter_replaces (op : Operation)
    (securityDefs : List SecurityRequirement) :
    (opSecurityDefsSetter op securityDefs).Security = securityDefs
      ∧ opSecurityDefsSetter op securityDefs = { op with Security := securityDefs }
      ∧ ((opSecurityDefsSetter op securityDefs).Security = op.Security ++ securityDefs
          ↔ op.Security = []) := by
  refine ⟨rfl, rfl, ?_⟩
  simp [opSecurityDefsSetter]

/-! ## The Extensions setter -/

theorem foldl_AddExtension_extensions (l : List (Sigma fun _ : String => String))
    (op : Operation) :
    (l.foldl (fun op e => op.AddExtension e.1 e.2) op).Extensions
      = l.foldl (fun m e => m.insert e.1 e.2) op.Extensions := by
  induction l generalizing op with
  | nil => rfl
  | cons e es ih =>
    simp only [List.foldl_cons]
    rw [ih]
    rfl

theorem lookup_foldl_insert (l : List (Sigma fun _ : String => String))
    (hl : l.NodupKeys) (m : Extensions) (k : String) :
    (l.foldl (fun m e => m.insert e.1 e.2) m).lookup k
      = (l.dlookup k <|> m.lookup k) := by
  induction l generalizing m with
  | nil => simp
  | cons e es ih =>
    obtain ⟨hnot, hes⟩ := List.nodupKeys_cons.mp hl
    simp only [List.foldl_cons]
    rw [ih hes]
    obtain ⟨a, b⟩ := e
    by_cases hk : k = a
    · subst hk
      have hnone : List.dlookup k es = none := List.dlookup_eq_none.mpr hnot
      rw [hnone, List.dlookup_cons_eq, AList.lookup_insert]
      rfl
    · rw [List.dlookup_cons_ne es ⟨a, b⟩ hk, AList.lookup_insert_ne hk]

theorem opExtensionsSetter_lookup (op : Operation) (exts : Extensions) (k : String) :
    (opExtensionsSetter op exts).Extensions.lookup k
      = (exts.lookup k <|> op.Extensions.lookup k) := by
  unfold opExtensionsSetter
  rw [foldl_AddExtension_extensions, lookup_foldl_insert _ exts.nodupKeys]
  rfl

/-- C7: after the Extensions setter is applied with `A` and then with `B`, a key
of `B` has the value `B` gives it, a key of `A` that is not in `B` has the value
`A` gives it, any other key has what the operation held before, and the keys of
the map are those of `A`, of `B` and of the map before. -/
theorem opExtensionsSetter_accumulates (op : Operation) (A B : Extensions) (k : String) :
    (opExtensionsSetter (opExtensionsSetter op A) B).Extensions.lookup k
        = (B.lookup k <|> A.lookup k <|> op.Extensions.lookup k)
      ∧ (k ∈ (opExtensionsSetter (opExtensionsSetter op A) B).Extensions
          ↔ k ∈ B ∨ k ∈ A ∨ k ∈ op.Extensions) := by
  have hlk : (opExtensionsSetter (opExtensionsSetter op A) B).Extensions.lookup k
      = (B.lookup k <|> A.lookup k <|> op.Extensions.lookup k) := by
    rw [opExtensionsSetter_lookup, opExtensionsSetter_lookup]
  refine ⟨hlk, ?_⟩
  rw [← AList.lookup_isSome, ← AList.lookup_isSome, ← AList.lookup_isSome,
    ← AList.lookup_isSome, hlk]
  cases B.lookup k <;> cases A.lookup k <;> cases op.Extensions.lookup k <;> simp

/-! ## The Parameters setter -/

theorem mem_firstOccurrences (ks : List (String × String)) (k : String × String) :
    k ∈ firstOccurrences ks ↔ k ∈ ks := by
  induction ks with
  | nil => simp [firstOccurrences]
  | cons a as ih =>
    simp only [firstOccurrences, List.mem_cons, List.mem_filter, ih]
    by_cases h : k = a <;> simp [h]

theorem nodup_firstOccurrences (ks : List (String × String)) :
    (firstOccurrences ks).Nodup := by
  induction ks with
  | nil => simp [firstOccurrences]
  | cons a as ih =>
    simp only [firstOccurrences, List.nodup_cons]
    exact ⟨by simp [List.mem_filter], ih.filter _⟩

theorem firstOccurrences_of_nodup (ks : List (String × String)) (h : ks.Nodup) :
    firstOccurrences ks = ks := by
  induction ks with
  | nil => rfl
  | cons a as ih =>
    obtain ⟨ha, has⟩ := List.nodup_cons.mp h
    simp only [firstOccurrences, ih has]
    congr 1
    rw [List.filter_eq_self]
    intro k hk
    have : k ≠ a := fun e => ha (e ▸ hk)
    simpa using this

theorem firstOccurrences_concat (ks : List (String × String)) (k : String × String) :
    firstOccurrences (ks ++ [k])
      = if k ∈ ks then firstOccurrences ks else firstOccurrences ks ++ [k] := by
  induction ks with
  | nil => simp [firstOccurrences]
  | cons a as ih =>
    show a :: (firstOccurrences (as ++ [k])).filter (fun k' => k' ≠ a)
      = if k ∈ a :: as then a :: (firstOccurrences as).filter (fun k' => k' ≠ a)
        else a :: (firstOccurrences as).filter (fun k' => k' ≠ a) ++ [k]
    rw [ih]
    by_cases hka : k = a
    · subst hka
      by_cases hmem : k ∈ as <;> simp [hmem, List.filter_append]
    · by_cases hmem : k ∈ as <;> simp [hmem, hka, List.filter_append]

theorem replaceOrAppend_keys (l : List Parameter) (q : Parameter) :
    (replaceOrAppend l q).map Parameter.key
      = if q.key ∈ l.map Parameter.key then l.map Parameter.key
        else l.map Parameter.key ++ [q.key] := by
  induction l with
  | nil => simp [replaceOrAppend]
  | cons p ps ih =>
    by_cases hpq : p.Name = q.Name ∧ p.In = q.In
    · have hkey : p.key = q.key := by simp [Parameter.key, hpq.1, hpq.2]
      simp [replaceOrAppend, hpq, hkey]
    · have hkey : ¬ q.key = p.key := by
        intro e
        simp only [Parameter.key, Prod.mk.injEq] at e
        exact hpq ⟨e.1.symm, e.2.symm⟩
      simp only [replaceOrAppend, hpq, if_false, List.map_cons, ih, List.mem_cons, hkey,
        false_or]
      by_cases hmem : q.key ∈ ps.map Parameter.key <;> simp [hmem]

theorem filter_key_eq_nil (l : List Parameter) (k : String × String)
    (h : k ∉ l.map Parameter.key) : l.filter (fun p => p.key = k) = [] := by
  rw [List.filter_eq_nil_iff]
  intro p hp hk
  exact h (List.mem_map.mpr ⟨p, hp, by simpa using hk⟩)

theorem replaceOrAppend_filter (l : List Parameter) (q : Parameter) (k : String × String)
    (h : (l.map Parameter.key).Nodup) :
    (replaceOrAppend l q).filter (fun p => p.key = k)
      = if q.key = k then [q] else l.filter (fun p => p.key = k) := by
  induction l with
  | nil => by_cases hq : q.key = k <;> simp [replaceOrAppend, hq]
  | cons p ps ih =>
    have h' : (p.key :: ps.map Parameter.key).Nodup := h
    obtain ⟨hp, hps⟩ := List.nodup_cons.mp h'
    by_cases hpq : p.Name = q.Name ∧ p.In = q.In
    · have hkey : p.key = q.key := by simp [Parameter.key, hpq.1, hpq.2]
      by_cases hq : q.key = k
      · have hnil := filter_key_eq_nil ps k (by rw [← hq, ← hkey]; exact hp)
        simp [replaceOrAppend, hpq, hq, List.filter_cons, hnil]
      · have hpk : ¬ p.key = k := by rw [hkey]; exact hq
        simp [replaceOrAppend, hpq, hq, hpk, List.filter_cons]
    · have hkey : ¬ p.key = q.key := by
        intro e
        simp only [Parameter.key, Prod.mk.injEq] at e
        exact hpq e
      have hroa : replaceOrAppend (p :: ps) q = p :: replaceOrAppend ps q := by
        simp [replaceOrAppend, hpq]
      rw [hroa, List.filter_cons, List.filter_cons, ih hps]
      by_cases hq : q.key = k
      · have hpk : ¬ p.key = k := by rw [← hq]; exact hkey
        simp [hpk, hq]
      · simp [hq]

theorem filter_key_getLast (l : List Parameter) (k : String × String)
    (h : (l.map Parameter.key).Nodup) :
    ((l.filter (fun p => p.key = k)).getLast?).toList = l.filter (fun p => p.key = k) := by
  induction l with
  | nil => rfl
  | cons p ps ih =>
    have h' : (p.key :: ps.map Parameter.key).Nodup := h
    obtain ⟨hp, hps⟩ := List.nodup_cons.mp h'
    rw [List.filter_cons]
    by_cases hpk : p.key = k
    · have hnil := filter_key_eq_nil ps k (by rw [← hpk]; exact hp)
      rw [hnil]
      simp [hpk]
    · simpa [hpk] using ih hps

theorem opParamSetter_parameters (op : Operation) (params : List Parameter) :
    (opParamSetter op params).Parameters = params.foldl replaceOrAppend op.Parameters := by
  unfold opParamSetter
  induction params generalizing op with
  | nil => rfl
  | cons q qs ih =>
    simp only [List.foldl_cons]
    rw [ih]
    rfl

theorem foldl_replaceOrAppend_keys (l params : List Parameter)
    (h : (l.map Parameter.key).Nodup) :
    (params.foldl replaceOrAppend l).map Parameter.key
      = firstOccurrences (l.map Parameter.key ++ params.map Parameter.key) := by
  induction params using List.reverseRecOn with
  | nil => simp [firstOccurrences_of_nodup _ h]
  | append_singleton ps q ih =>
    rw [List.foldl_append, List.foldl_cons, List.foldl_nil, replaceOrAppend_keys, ih,
      List.map_append, List.map_cons, List.map_nil, ← List.append_assoc,
      firstOccurrences_concat]
    simp only [mem_firstOccurrences]

theorem foldl_replaceOrAppend_filter (l params : List Parameter) (k : String × String)
    (h : (l.map Parameter.key).Nodup) :
    (params.foldl replaceOrAppend l).filter (fun p => p.key = k)
      = (((l ++ params).filter (fun p => p.key = k)).getLast?).toList := by
  induction params using List.reverseRecOn with
  | nil =>
    rw [List.append_nil, filter_key_getLast l k h]
    rfl
  | append_singleton ps q ih =>
    have hnd : ((ps.foldl replaceOrAppend l).map Parameter.key).Nodup := by
      rw [foldl_replaceOrAppend_keys l ps h]
      exact nodup_firstOccurrences _
    rw [List.foldl_append, List.foldl_cons, List.foldl_nil,
      replaceOrAppend_filter _ q k hnd, ih, ← List.append_assoc,
      List.filter_append (l ++ ps) [q]]
    by_cases hq : q.key = k
    · have hf : List.filter (fun p => decide (p.key = k)) [q] = [q] := by
        simp [List.filter_cons, hq]
      rw [hf, List.getLast?_concat, if_pos hq]
      rfl
    · have hf : List.filter (fun p => decide (p.key = k)) [q] = [] := by
        simp [List.filter_cons, hq]
      rw [hf, List.append_nil, if_neg hq]

/-- C8, as stated, fails: on an operation that already holds two parameters
`id` in `path`, the Parameters setter given two entries `id` in `path` leaves
the later entry and the second of the old parameters, so the final list has two
parameters with that name and location, not one, and its (name, location)
pairs are not distinct. -/
theorem opParamSetter_duplicates_counterexample :
    (opParamSetter dupOperation dupParams).Parameters
        = [{ Name := "id", In := "path", Schema := "string", Description := "d" },
           { Name := "id", In := "path", Schema := "string", Description := "b" }]
      ∧ ((opParamSetter dupOperation dupParams).Parameters.filter
            (fun p => p.key = ("id", "path"))).length = 2
      ∧ ¬ ((opParamSetter dupOperation dupParams).Parameters.map Parameter.key).Nodup := by
  refine ⟨by decide, by decide, by decide⟩

/-- C8, amended: on an operation whose parameters have pairwise distinct (name,
location) pairs, the Parameters setter keeps the pairs distinct; the pairs of
the final list stand in the order of their first declaration; the final list
holds, for each pair, exactly the last parameter declared with it; so for an
entry `q` of the given list the final list has exactly one parameter with the
name and location of `q`, the last such entry of the list. -/
theorem opParamSetter_unique_ordered (op : Operation) (params : List Parameter)
    (huniq : (op.Parameters.map Parameter.key).Nodup) :
    ((opParamSetter op params).Parameters.map Parameter.key).Nodup
      ∧ (opParamSetter op params).Parameters.map Parameter.key
          = firstOccurrences (op.Parameters.map Parameter.key ++ params.map Parameter.key)
      ∧ (∀ k : String × String,
          (opParamSetter op params).Parameters.filter (fun p => p.key = k)
            = (((op.Parameters ++ params).filter (fun p => p.key = k)).getLast?).toList)
      ∧ (∀ q ∈ params, ∃ p,
          (params.filter (fun p => p.key = q.key)).getLast? = some p
            ∧ (opParamSetter op params).Parameters.filter (fun p => p.key = q.key)
                = [p]) := by
  have hkeys := foldl_replaceOrAppend_keys op.Parameters params huniq
  have hfilter := fun k => foldl_replaceOrAppend_filter op.Parameters params k huniq
  rw [opParamSetter_parameters]
  refine ⟨?_, hkeys, hfilter, ?_⟩
  · rw [hkeys]
    exact nodup_firstOccurrences _
  · intro q hq
    have hne : params.filter (fun p => p.key = q.key) ≠ [] := by
      intro hnil
      rw [List.filter_eq_nil_iff] at hnil
      exact hnil q hq (by simp)
    obtain ⟨p, hp⟩ : ∃ p, (params.filter (fun p => p.key = q.key)).getLast? = some p := by
      cases hl : (params.filter (fun p => p.key = q.key)).getLast? with
      | none => exact absurd (List.getLast?_eq_none_iff.mp hl) hne
      | some p => exact ⟨p, rfl⟩
    refine ⟨p, hp, ?_⟩
    rw [hfilter, List.filter_append, List.getLast?_append_of_ne_nil _ hne, hp]
    rfl

/-- The parameters of `exampleOperation` have distinct (name, location) pairs,
and there the Parameters setter leaves the second declaration of `id` in the first place
and `limit` after it. -/
theorem opParamSetter_unique_ordered_witness :
    (exampleOperation.Parameters.map Parameter.key).Nodup
      ∧ (opParamSetter exampleOperation exampleParams).Parameters.map Parameter.key
          = firstOccurrences
              (exampleOperation.Parameters.map Parameter.key
                ++ exampleParams.map Parameter.key)
      ∧ (opParamSetter exampleOperation exampleParams).Parameters
          = [{ Name := "id", In := "path", Schema := "integer", Description := "second" },
             { Name := "limit", In := "query", Schema := "integer",
               Description := "page size" }] :=
  ⟨by decide,
   (opParamSetter_unique_ordered exampleOperation exampleParams (by decide)).2.1,
   by decide⟩

/-! ## Facts about `Build` -/

theorem opServersSetter_ID (op : Operation) (schemes : List String) :
    (opServersSetter op schemes).ID = op.ID := by
  unfold opServersSetter
  induction schemes generalizing op with
  | nil => rfl
  | cons s ss ih => rw [List.foldl_cons, ih]

theorem opParamSetter_ID (op : Operation) (params : List Parameter) :
    (opParamSetter op params).ID = op.ID := by
  unfold opParamSetter
  induction params generalizing op with
  | nil => rfl
  | cons q qs ih =>
    rw [List.foldl_cons, ih]
    rfl

theorem opExtensionsSetter_ID (op : Operation) (exts : Extensions) :
    (opExtensionsSetter op exts).ID = op.ID := by
  unfold opExtensionsSetter
  generalize exts.entries = l
  induction l generalizing op with
  | nil => rfl
  | cons e es ih =>
    rw [List.foldl_cons, ih]
    rfl

theorem applyCall_ID (joinDropLast : List String → String) (op : Operation)
    (c : SetterCall) : (applyCall joinDropLast op c).ID = op.ID := by
  cases c with
  | schemes c => exact opServersSetter_ID op c
  | params c => exact opParamSetter_ID op c
  | extensions c => exact opExtensionsSetter_ID op c
  | _ => rfl

theorem foldl_applyCall_ID (joinDropLast : List String → String) (calls : List SetterCall)
    (op : Operation) : (calls.foldl (applyCall joinDropLast) op).ID = op.ID := by
  induction calls generalizing op with
  | nil => rfl
  | cons c cs ih => rw [List.foldl_cons, ih, applyCall_ID]

theorem deref_modify_same (h : Heap) (p : Ptr) (f : Operation → Operation) :
    deref (modify h p f) p = f (deref h p) := by
  simp [deref, modify]

/-- The heap `Build` leaves, whether the parse fails or not: the target record
has the route's tags and then the effect of the callbacks the parser invoked. -/
theorem Build_heap (spo : SetPathOperation) (joinDropLast : List String → String)
    (parse : SectionParse) (r : routesBuilder) (h : Heap) (tgt : Paths) :
    (r.Build spo joinDropLast parse h tgt).heap
      = modify
          (modify (spo r.route.Method r.route.ID (pathAt tgt r.route.Path)
              (r.operations.lookup r.route.ID) h).2.1
            (spo r.route.Method r.route.ID (pathAt tgt r.route.Path)
              (r.operations.lookup r.route.ID) h).2.2
            (fun o => { o with Tags := r.route.Tags }))
          (spo r.route.Method r.route.ID (pathAt tgt r.route.Path)
            (r.operations.lookup r.route.ID) h).2.2
          (fun o => (parse r.route.Remaining).1.foldl (applyCall joinDropLast) o) := by
  unfold routesBuilder.Build
  dsimp only
  split <;> rfl

/-- The record of the target operation after `Build`, whether the parse fails
or not. -/
theorem Build_deref_target (spo : SetPathOperation) (joinDropLast : List String → String)
    (parse : SectionParse) (r : routesBuilder) (h : Heap) (tgt : Paths) :
    deref (r.Build spo joinDropLast parse h tgt).heap
        (spo r.route.Method r.route.ID (pathAt tgt r.route.Path)
          (r.operations.lookup r.route.ID) h).2.2
      = (parse r.route.Remaining).1.foldl (applyCall joinDropLast)
          { deref (spo r.route.Method r.route.ID (pathAt tgt r.route.Path)
                (r.operations.lookup r.route.ID) h).2.1
              (spo r.route.Method r.route.ID (pathAt tgt r.route.Path)
                (r.operations.lookup r.route.ID) h).2.2
            with Tags := r.route.Tags } := by
  rw [Build_heap, deref_modify_same, deref_modify_same]

theorem Build_err (spo : SetPathOperation) (joinDropLast : List String → String)
    (parse : SectionParse) (r : routesBuilder) (h : Heap) (tgt : Paths) :
    (r.Build spo joinDropLast parse h tgt).err
      = (parse r.route.Remaining).2.map
          (errorfOperation
            (deref (r.Build spo joinDropLast parse h tgt).heap
              (spo r.route.Method r.route.ID (pathAt tgt r.route.Path)
                (r.operations.lookup r.route.ID) h).2.2).ID) := by
  rw [Build_heap]
  unfold routesBuilder.Build
  dsimp only
  split <;> rename_i hp <;> rw [hp] <;> rfl

theorem Build_tgt_of_error (spo : SetPathOperation) (joinDropLast : List String → String)
    (parse : SectionParse) (r : routesBuilder) (h : Heap) (tgt : Paths)
    (hfail : (parse r.route.Remaining).2 ≠ none) :
    (r.Build spo joinDropLast parse h tgt).tgt = tgt := by
  unfold routesBuilder.Build
  dsimp only
  split
  · rfl
  · rename_i hp
    exact absurd hp hfail

theorem Build_tgt_of_ok (spo : SetPathOperation) (joinDropLast : List String → String)
    (parse : SectionParse) (r : routesBuilder) (h : Heap) (tgt : Paths)
    (hok : (parse r.route.Remaining).2 = none) :
    (r.Build spo joinDropLast parse h tgt).tgt.Paths
      = some ((tgt.Paths.getD ∅).insert r.route.Path
          (spo r.route.Method r.route.ID (pathAt tgt r.route.Path)
            (r.operations.lookup r.route.ID) h).1) := by
  unfold routesBuilder.Build
  dsimp only
  split
  · rename_i e hp
    rw [hok] at hp
    exact absurd hp (by simp)
  · cases tgt.Paths <;> rfl

theorem installOperation_slot (method id : String) (pthObj : PathItem) (op : Option Ptr)
    (h : Heap) :
    (installOperation method id pthObj op h).1.lookup method
      = some (installOperation method id pthObj op h).2.2 := by
  cases op <;> simp [installOperation]

theorem installOperation_other (method id : String) (pthObj : PathItem) (op : Option Ptr)
    (h : Heap) (m : String) (hm : m ≠ method) :
    (installOperation method id pthObj op h).1.lookup m = pthObj.lookup m := by
  cases op <;> simp [installOperation, AList.lookup_insert_ne hm]

theorem setPathOperation_slot (method id : String) (pthObj : PathItem) (op : Option Ptr)
    (h : Heap) :
    (setPathOperation method id pthObj op h).1.lookup method
      = some (setPathOperation method id pthObj op h).2.2 := by
  unfold setPathOperation
  split
  · rename_i p hp
    split
    · exact hp
    · exact installOperation_slot method id pthObj op h
  · exact installOperation_slot method id pthObj op h

theorem setPathOperation_other (method id : String) (pthObj : PathItem) (op : Option Ptr)
    (h : Heap) (m : String) (hm : m ≠ method) :
    (setPathOperation method id pthObj op h).1.lookup m = pthObj.lookup m := by
  unfold setPathOperation
  split
  · split
    · rfl
    · exact installOperation_other method id pthObj op h m hm
  · exact installOperation_other method id pthObj op h m hm

/-- C1: when the section parser returns an error, `Build` returns an error and
the path map of the document is as before the call: a nil map stays nil, and a
map keeps its keys and the path item of each key. -/
theorem Build_error_keeps_path_map (spo : SetPathOperation)
    (joinDropLast : List String → String) (parse : SectionParse) (r : routesBuilder)
    (h : Heap) (tgt : Paths) (hfail : (parse r.route.Remaining).2 ≠ none) :
    (r.Build spo joinDropLast parse h tgt).err ≠ none
      ∧ (r.Build spo joinDropLast parse h tgt).tgt.Paths = tgt.Paths
      ∧ (tgt.Paths = none → (r.Build spo joinDropLast parse h tgt).tgt.Paths = none)
      ∧ (∀ m, tgt.Paths = some m →
          ∃ m', (r.Build spo joinDropLast parse h tgt).tgt.Paths = some m'
            ∧ m'.keys = m.keys ∧ ∀ key, m'.lookup key = m.lookup key) := by
  have ht := Build_tgt_of_error spo joinDropLast parse r h tgt hfail
  refine ⟨?_, by rw [ht], fun hn => by rw [ht]; exact hn, fun m hm => ⟨m, by rw [ht]; exact hm, rfl, fun _ => rfl⟩⟩
  rw [Build_err]
  cases hp : (parse r.route.Remaining).2 with
  | none => exact absurd hp hfail
  | some e => simp

/-- The parse `failingParse` returns an error, and there `Build` keeps the path
map of `petDocument`. -/
theorem Build_error_keeps_path_map_witness :
    (failingParse petBuilder.route.Remaining).2 ≠ none
      ∧ (petBuilder.Build setPathOperation joinLines failingParse petHeap petDocument).tgt.Paths
          = petDocument.Paths :=
  ⟨by simp [failingParse],
   (Build_error_keeps_path_map setPathOperation joinLines failingParse petBuilder petHeap
      petDocument (by simp [failingParse])).2.1⟩

/-- C3: `Build` returns an error exactly when the section parser does; the error
it returns is the parser's error wrapped, with the message `operation (ID): `
followed by the parser's message, where `ID` is the identifier of the target
operation (the same before and after the callbacks); when the parser returns
nil so does `Build`. -/
theorem Build_error_iff_parse_error (spo : SetPathOperation)
    (joinDropLast : List String → String) (parse : SectionParse) (r : routesBuilder)
    (h : Heap) (tgt : Paths) :
    ((r.Build spo joinDropLast parse h tgt).err = none
        ↔ (parse r.route.Remaining).2 = none)
      ∧ (r.Build spo joinDropLast parse h tgt).err
          = (parse r.route.Remaining).2.map
              (fun e => GoError.wrapError
                ("operation ("
                  ++ (deref (spo r.route.Method r.route.ID (pathAt tgt r.route.Path)
                        (r.operations.lookup r.route.ID) h).2.1
                      (spo r.route.Method r.route.ID (pathAt tgt r.route.Path)
                        (r.operations.lookup r.route.ID) h).2.2).ID
                  ++ "): " ++ e.Error) e)
      ∧ (deref (r.Build spo joinDropLast parse h tgt).heap
            (spo r.route.Method r.route.ID (pathAt tgt r.route.Path)
              (r.operations.lookup r.route.ID) h).2.2).ID
          = (deref (spo r.route.Method r.route.ID (pathAt tgt r.route.Path)
                (r.operations.lookup r.route.ID) h).2.1
              (spo r.route.Method r.route.ID (pathAt tgt r.route.Path)
                (r.operations.lookup r.route.ID) h).2.2).ID
      ∧ (∀ (msg : String) (e : GoError),
          (GoError.wrapError msg e).Unwrap = some e
            ∧ (GoError.wrapError msg e).Error = msg) := by
  have hid : (deref (r.Build spo joinDropLast parse h tgt).heap
      (spo r.route.Method r.route.ID (pathAt tgt r.route.Path)
        (r.operations.lookup r.route.ID) h).2.2).ID
      = (deref (spo r.route.Method r.route.ID (pathAt tgt r.route.Path)
            (r.operations.lookup r.route.ID) h).2.1
          (spo r.route.Method r.route.ID (pathAt tgt r.route.Path)
            (r.operations.lookup r.route.ID) h).2.2).ID := by
    rw [Build_deref_target, foldl_applyCall_ID]
  have herr := Build_err spo joinDropLast parse r h tgt
  rw [hid] at herr
  refine ⟨?_, herr, hid, fun _ _ => ⟨rfl, rfl⟩⟩
  rw [herr]
  cases (parse r.route.Remaining).2 <;> simp

/-- C4: when the parse succeeds, `Build` returns nil and leaves a non-nil path
map; its entry at the route's path is the path item looked up at the start of
the build with the target operation in the slot of the route's method and every
other slot as looked up; the entry at every other key is unchanged; the target
operation has the tags of the route and then the effect of the callbacks. -/
theorem Build_ok_installs (joinDropLast : List String → String) (parse : SectionParse)
    (r : routesBuilder) (h : Heap) (tgt : Paths)
    (hok : (parse r.route.Remaining).2 = none) :
    (r.Build setPathOperation joinDropLast parse h tgt).err = none
      ∧ ∃ m pthObj op,
          (r.Build setPathOperation joinDropLast parse h tgt).tgt.Paths = some m
            ∧ m.lookup r.route.Path = some pthObj
            ∧ op = (setPathOperation r.route.Method r.route.ID (pathAt tgt r.route.Path)
                      (r.operations.lookup r.route.ID) h).2.2
            ∧ pthObj.lookup r.route.Method = some op
            ∧ (∀ method, method ≠ r.route.Method →
                pthObj.lookup method = (pathAt tgt r.route.Path).lookup method)
            ∧ (∀ key, key ≠ r.route.Path →
                m.lookup key = tgt.Paths.bind (fun m0 => m0.lookup key))
            ∧ deref (r.Build setPathOperation joinDropLast parse h tgt).heap op
                = (parse r.route.Remaining).1.foldl (applyCall joinDropLast)
                    { deref (setPathOperation r.route.Method r.route.ID
                          (pathAt tgt r.route.Path)
                          (r.operations.lookup r.route.ID) h).2.1 op
                      with Tags := r.route.Tags } := by
  have ht := Build_tgt_of_ok setPathOperation joinDropLast parse r h tgt hok
  refine ⟨?_, _, _, _, ht, AList.lookup_insert _, rfl,
    setPathOperation_slot _ _ _ _ _, setPathOperation_other _ _ _ _ _, ?_,
    Build_deref_target setPathOperation joinDropLast parse r h tgt⟩
  · rw [Build_err, hok]
    rfl
  · intro key hkey
    rw [AList.lookup_insert_ne hkey]
    cases tgt.Paths <;> simp

/-- The parse `schemesParse` returns nil, and on a document whose path map is
nil `Build` returns nil and leaves a path map. -/
theorem Build_ok_installs_witness :
    (schemesParse petBuilder.route.Remaining).2 = none
      ∧ (petBuilder.Build setPathOperation joinLines schemesParse petHeap
          { Paths := none }).err = none :=
  ⟨rfl,
   (Build_ok_installs joinLines schemesParse petBuilder petHeap { Paths := none } rfl).1⟩

end Codescan
